import Mathlib

/-!
# Verification of the pybricksdev BLE link protocol engine

Shallow embedding of `src/pybricksdev/run.py` (the canonical variant per the
spec's design notes): the `HubDataReceiver` / `PybricksHubConnection` classes.

Bytes are modelled as `Nat` (values < 256 in practice), byte strings as
`List Nat`.  The asynchronous environment (BLE notifications arriving during
`asyncio.sleep` suspension points) is modelled by an arrival oracle
`arr : Nat → Option (List Nat)` giving the fragment (if any) delivered during
the i-th poll sleep of the checksum wait.  Side effects (transport writes,
pacing sleeps, state-change log events, printed lines, log-file writes,
exceptions escaping the notification callback) are recorded as an event list.
-/

set_option maxRecDepth 10000

namespace Pybricksdev

/-- ASCII bytes of a string literal. -/
def bytes (s : String) : List Nat := s.toList.map Char.toNat

/-- Hub status values; `run.py` encodes them as the integers 0..4
(`UNKNOWN`/`IDLE`/`RUNNING`/`ERROR`/`CHECKING`). `CHECKING` is the spec's
`AwaitingChecksum`. -/
inductive HubState
  | UNKNOWN
  | IDLE
  | RUNNING
  | ERROR
  | CHECKING
deriving DecidableEq

/-- Exceptions raised inside the notification callback
(`OSError`s of `process_line`, and Python's `IndexError` from `data[-1]`
on an empty fragment). -/
inductive HubErr
  | logAlreadyOpen
  | noLogOpen
  | indexError
deriving DecidableEq

/-- Errors raised by the outbound path (`send_message`):
`ValueError` for oversize payloads, `TimeoutError` from `wait_for_checksum`,
`OSError("Did not receive reply.")`, `ValueError` on checksum mismatch. -/
inductive SendErr
  | ValueTooLarge
  | ChecksumTimeout
  | NoReply
  | ChecksumMismatch
deriving DecidableEq

/-- Observable events of a run. -/
inductive Ev
  | lineRx (line : List Nat)       -- a complete line extracted from the buffer
  | stateChange (s : HubState)     -- state assignment inside update_state
  | checksumByte (b : Nat)         -- checksum reply stored while CHECKING
  | logOpen (name : List Nat)      -- log file opened by process_line
  | fileWrite (data : List Nat)    -- bytes printed to the open log file
  | output (data : List Nat)       -- bytes printed to stdout
  | logClose                       -- log file closed
  | raised (e : HubErr)            -- exception escaped the callback
  | sleep (ms : Nat)               -- asyncio.sleep suspension (milliseconds)
  | tx (chunk : List Nat)          -- write_gatt_char transport write
  | runWait                        -- wait_until_not_running entered
deriving DecidableEq

/-- The mutable fields of a `HubDataReceiver` object. -/
structure Hub where
  buf : List Nat
  state : HubState
  reply : Option Nat
  log_file : Option (List Nat)
deriving DecidableEq

/-- A freshly constructed receiver (`__init__`). -/
def hub0 : Hub := { buf := [], state := .UNKNOWN, reply := none, log_file := none }

/-! ## Event-list projections -/

/-- Lines handed to the line processor, in order. -/
def linesOf (evs : List Ev) : List (List Nat) :=
  evs.filterMap fun e => match e with | .lineRx l => some l | _ => none

/-- Did an exception escape the callback somewhere in `evs`? -/
def raisedIn (evs : List Ev) : Bool :=
  evs.any fun e => match e with | .raised _ => true | _ => false

/-- Transport bytes written, reassembled in order. -/
def txJoin (evs : List Ev) : List Nat :=
  (evs.filterMap fun e => match e with | .tx c => some c | _ => none).flatten

/-- Is this event a transport write? -/
def isTx : Ev → Bool
  | .tx _ => true
  | _ => false

/-- Events an inbound delivery or a checksum wait can produce
(everything except transport writes and the run-wait marker). -/
def benign : Ev → Bool
  | .tx _ => false
  | .runWait => false
  | _ => true

/-- Number of recorded state-change events. -/
def stateChangeCount (evs : List Ev) : Nat :=
  evs.countP fun e => match e with | .stateChange _ => true | _ => false

/-! ## Line framing: `self.buf.index(b'\r\n')` and the extraction loop -/

/-- Index of the first occurrence of the two-byte sequence CR LF
(`bytes.index(b'\r\n')`, with `none` modelling the `ValueError`). -/
def findCRLF : List Nat → Option Nat
  | [] => none
  | [_] => none
  | a :: b :: rest =>
    if a = 13 ∧ b = 10 then some 0
    else (findCRLF (b :: rest)).map (· + 1)

/-- Structural helper for `drainLines`: the fuel bounds the number of loop
iterations; each extraction removes at least two bytes, so `buf.length` is
always enough fuel. -/
def drainLinesAux : Nat → List Nat → List (List Nat) × List Nat
  | 0, buf => ([], buf)
  | fuel + 1, buf =>
    match findCRLF buf with
    | none => ([], buf)
    | some i =>
      let p := drainLinesAux fuel (buf.drop (i + 2))
      (buf.take i :: p.1, p.2)

/-- Fully drain a buffer: all CR-LF-terminated lines in order, plus the
remainder (which holds no CR LF). This is the pure content of the
`while True: ... index ... break` loop in `update_data_buffer`. -/
def drainLines (buf : List Nat) : List (List Nat) × List Nat :=
  drainLinesAux buf.length buf

/-! ## The line processor: `HubDataReceiver.process_line` -/

/-- Is `pat` a contiguous subsequence of the second list
(Python's `pat in text` on byte strings)? -/
def containsSeq (pat : List Nat) : List Nat → Bool
  | [] => decide (pat = [])
  | a :: rest => decide ((a :: rest).take pat.length = pat) || containsSeq pat rest

/-- `'PB_OF'` as bytes: the log-open marker. -/
def PB_OF : List Nat := bytes "PB_OF"

/-- `'PB_EOF'` as bytes: the log-close marker. -/
def PB_EOF : List Nat := bytes "PB_EOF"

/-- `process_line`. `line.decode()` is modelled as the identity on the byte
sequence, so text positions are byte positions (exact for ASCII streams;
decode failures are outside the modelled claims). Returns the new
`self.log_file` plus the emitted events, or the raised `OSError`.
`print` appends a newline (byte 10) to what it writes. -/
def process_line (log_file : Option (List Nat)) (line : List Nat) :
    Except HubErr (Option (List Nat) × List Ev) :=
  -- `text = line.decode()`, modelled as the byte sequence itself
  let text := line;
  if containsSeq PB_OF text then
    match log_file with
    | some _ => .error .logAlreadyOpen
    | none =>
      let name := text.drop 6
      .ok (some name, [Ev.logOpen name])
  else if containsSeq PB_EOF text then
    match log_file with
    | none => .error .noLogOpen
    | some _ => .ok (none, [Ev.logClose])
  else
    match log_file with
    | some f => .ok (some f, [Ev.fileWrite (text ++ [10])])
    | none => .ok (none, [Ev.output (text ++ [10])])

/-! ## The state machine: `map_state` and `update_state` -/

/-- `map_state`: exact status-token lines to states. -/
def map_state (line : List Nat) : Option HubState :=
  if line = bytes ">>>> IDLE" then some .IDLE
  else if line = bytes ">>>> RUNNING" then some .RUNNING
  else if line = bytes ">>>> ERROR" then some .ERROR
  else none

/-- `update_state` on the bare state value: assign (and record a
state-change event) only when the new state differs. -/
def updStateS (st new_state : HubState) : HubState × List Ev :=
  if new_state ≠ st then (new_state, [Ev.stateChange new_state])
  else (st, [])

/-- `update_state` on the receiver object. -/
def update_state (h : Hub) (new_state : HubState) : Hub × List Ev :=
  let p := updStateS h.state new_state
  ({ h with state := p.1 }, p.2)

/-! ## The inbound dispatcher: `HubDataReceiver.update_data_buffer` -/

/-- `if self.map_state(line) is not None: self.update_state(self.map_state(line))`. -/
def state_check (st : HubState) (line : List Nat) : HubState × List Ev :=
  match map_state line with
  | some ns => updStateS st ns
  | none => (st, [])

/-- One iteration body of the extraction loop for an extracted `line`:
the `map_state`/`update_state` check followed by `process_line`.
Returns the new state, the new log-file field, the events
(the `lineRx` event models the line being handed on), and whether an
exception was raised (which ends the loop). -/
def handle_line (st : HubState) (lf : Option (List Nat)) (line : List Nat) :
    (HubState × Option (List Nat) × List Ev) × Bool :=
  let p := state_check st line
  match process_line lf line with
  | .error e => ((p.1, lf, Ev.lineRx line :: p.2 ++ [Ev.raised e]), true)
  | .ok q => ((p.1, q.1, Ev.lineRx line :: p.2 ++ q.2), false)

/-- Structural helper for `update_data_buffer_loop` (fuel as in
`drainLinesAux`). -/
def udb_loop_aux : Nat → HubState → Option (List Nat) → List Nat →
    HubState × Option (List Nat) × List Nat × List Ev
  | 0, st, lf, buf => (st, lf, buf, [])
  | fuel + 1, st, lf, buf =>
    match findCRLF buf with
    | none => (st, lf, buf, [])
    | some i =>
      let line := buf.take i
      let rest := buf.drop (i + 2)
      let r := handle_line st lf line
      if r.2 then (r.1.1, r.1.2.1, rest, r.1.2.2)
      else
        let q := udb_loop_aux fuel r.1.1 r.1.2.1 rest
        (q.1, q.2.1, q.2.2.1, r.1.2.2 ++ q.2.2.2)

/-- The `while True` extraction loop of `update_data_buffer`: split the
buffer at each CR LF, handling each line as it is extracted. A raised
exception propagates out of the loop at once (the buffer keeps the bytes
past the already-consumed line, exactly as in the Python object). -/
def update_data_buffer_loop (st : HubState) (lf : Option (List Nat)) (buf : List Nat) :
    HubState × Option (List Nat) × List Nat × List Ev :=
  udb_loop_aux buf.length st lf buf

/-- `update_data_buffer`, the notification callback: while CHECKING the
last byte of the fragment is the checksum reply (`data[-1]`, an
`IndexError` on an empty fragment); otherwise the fragment is appended to
the buffer and complete lines are extracted and handled. -/
def update_data_buffer (h : Hub) (data : List Nat) : Hub × List Ev :=
  if h.state = .CHECKING then
    match data.getLast? with
    | some b => ({ h with reply := some b }, [Ev.checksumByte b])
    | none => (h, [Ev.raised .indexError])
  else
    let r := update_data_buffer_loop h.state h.log_file (h.buf ++ data)
    ({ h with state := r.1, log_file := r.2.1, buf := r.2.2.1 }, r.2.2.2)

/-- Deliver a sequence of inbound fragments, one callback invocation each
(exceptions escaping a callback are recorded as events; the BLE stack keeps
delivering later notifications). -/
def deliverAll (h : Hub) : List (List Nat) → Hub × List Ev
  | [] => (h, [])
  | d :: ds =>
    let p := update_data_buffer h d
    let q := deliverAll p.1 ds
    (q.1, p.2 ++ q.2)

/-! ## The outbound path: `write`, `wait_for_checksum`, `send_message`,
`download_and_run` -/

/-- Structural helper for `pyChunks` (fuel as in `drainLinesAux`). -/
def pyChunksAux : Nat → Nat → List Nat → List (List Nat)
  | 0, _, _ => []
  | fuel + 1, n, data =>
    if data = [] ∨ n = 0 then []
    else data.take n :: pyChunksAux fuel n (data.drop n)

/-- Python's `[data[i : i + n] for i in range(0, len(data), n)]` for a
positive step `n` (the program only uses `n = 20` and `n = 100`; the
`n = 0` guard is a totality artifact, Python would raise there). -/
def pyChunks (n : Nat) (data : List Nat) : List (List Nat) :=
  pyChunksAux data.length n data

/-- `PybricksHubConnection.write`: split into ≤20-byte transport chunks,
sleep 50 ms before each `write_gatt_char`. Only produces events (the
receiver fields are untouched). -/
def write (data : List Nat) : List Ev :=
  (pyChunks 20 data).flatMap fun chunk => [Ev.sleep 50, Ev.tx chunk]

/-- Result of `wait_for_checksum`: `timedOut` models the raised
`TimeoutError`; `reply` is the value of the local variable `reply` that is
returned (kept as an `Option` exactly as the Python value is); `hub` is the
receiver object afterwards; `polls` counts loop iterations (each one
`asyncio.sleep(0.01)`). -/
structure WfcOut where
  timedOut : Bool
  reply : Option Nat
  hub : Hub
  events : List Ev
  polls : Nat
deriving DecidableEq

/-- What happens while the wait loop is suspended in its i-th
`asyncio.sleep(0.01)`: nothing, or the notification callback runs on the
fragment the transport delivered. -/
def wfc_step (arr : Nat → Option (List Nat)) (i : Nat) (h : Hub) : Hub × List Ev :=
  match arr i with
  | none => (h, [])
  | some frag => update_data_buffer h frag

/-- The `for i in range(50)` polling loop of `wait_for_checksum`.
`arr i` is the inbound fragment (if any) delivered by the transport while
the loop is suspended in its i-th `asyncio.sleep(0.01)`; the notification
callback `update_data_buffer` runs on it before the loop resumes. -/
def wfc_loop (arr : Nat → Option (List Nat)) : Nat → Nat → Hub → WfcOut
  | _, 0, h => ⟨true, none, h, [], 0⟩
  | i, fuel + 1, h =>
    let p := wfc_step arr i h
    let evs := Ev.sleep 10 :: p.2
    match p.1.reply with
    | some _ =>
      let reply := p.1.reply
      let h2 := { p.1 with reply := none }
      let q := update_state h2 .IDLE
      ⟨false, reply, q.1, evs ++ q.2, 1⟩
    | none =>
      let o := wfc_loop arr (i + 1) fuel p.1
      ⟨o.timedOut, o.reply, o.hub, evs ++ o.events, o.polls + 1⟩

/-- `HubDataReceiver.wait_for_checksum`. -/
def wait_for_checksum (arr : Nat → Option (List Nat)) (h : Hub) : WfcOut :=
  let p := update_state h .CHECKING
  let o := wfc_loop arr 0 50 p.1
  { o with events := p.2 ++ o.events }

/-- `checksum = 0; for b in data: checksum ^= b`. -/
def xorFold (data : List Nat) : Nat := data.foldl (fun c b => c ^^^ b) 0

/-- Result of `send_message` / `download_and_run`: the raised error if any,
the receiver object afterwards, the events, and the checksum-wait poll
count (0 if the wait was never reached). -/
structure SendOut where
  err : Option SendErr
  hub : Hub
  events : List Ev
  polls : Nat
deriving DecidableEq

/-- `PybricksHubConnection.send_message`. -/
def send_message (arr : Nat → Option (List Nat)) (h : Hub) (data : List Nat) : SendOut :=
  if data.length > 100 then
    ⟨some .ValueTooLarge, h, [], 0⟩
  else
    let checksum := xorFold data
    let wevs := write data
    let o := wait_for_checksum arr h
    if o.timedOut then
      ⟨some .ChecksumTimeout, o.hub, wevs ++ o.events, o.polls⟩
    else
      match o.reply with
      | none => ⟨some .NoReply, o.hub, wevs ++ o.events, o.polls⟩
      | some r =>
        if checksum ≠ r then ⟨some .ChecksumMismatch, o.hub, wevs ++ o.events, o.polls⟩
        else ⟨none, o.hub, wevs ++ o.events, o.polls⟩

/-- `len(mpy).to_bytes(4, byteorder='little')` (for values below 2^32). -/
def le4 (n : Nat) : List Nat :=
  [n % 256, n / 256 % 256, n / 65536 % 256, n / 16777216 % 256]

/-- The `for i, chunk in enumerate(chunks)` loop of `download_and_run`:
send each protocol chunk with `send_message`, strictly one at a time; the
first error aborts the loop and propagates. `arrs k` is the arrival oracle
in effect during the k-th `send_message` call of the whole download. -/
def send_chunks (arrs : Nat → Nat → Option (List Nat)) (k : Nat) (h : Hub) :
    List (List Nat) → Option SendErr × Hub × List Ev
  | [] => (none, h, [])
  | c :: rest =>
    let o := send_message (arrs k) h c
    match o.err with
    | some e => (some e, o.hub, o.events)
    | none =>
      let q := send_chunks arrs (k + 1) o.hub rest
      (q.1, q.2.1, o.events ++ q.2.2)

/-- `PybricksHubConnection.download_and_run`: length prefix as one message,
then 100-byte protocol chunks, then `wait_until_not_running`. The latter
(a 500 ms grace sleep followed by an unbounded 100 ms status poll) is
modelled as the `runWait` suspension event that the call ends in. -/
def download_and_run (arrs : Nat → Nat → Option (List Nat)) (h : Hub) (mpy : List Nat) :
    Option SendErr × Hub × List Ev :=
  let length := le4 mpy.length
  let o := send_message (arrs 0) h length
  match o.err with
  | some e => (some e, o.hub, o.events)
  | none =>
    let chunks := pyChunks 100 mpy
    let q := send_chunks arrs 1 o.hub chunks
    match q.1 with
    | some e => (some e, q.2.1, o.events ++ q.2.2)
    | none => (none, q.2.1, o.events ++ q.2.2 ++ [Ev.runWait])

/-! ## Concrete environments used by the tests of the claims -/

/-- Transport that delivers the single byte `c` during poll `j` of the
checksum wait and nothing otherwise. -/
def echoAt (j c : Nat) : Nat → Option (List Nat) :=
  fun i => if i = j then some [c] else none

/-- Transport that never delivers anything. -/
def arrSilent : Nat → Option (List Nat) := fun _ => none

/-- A 250-byte program image. -/
def mpy250 : List Nat := List.replicate 250 1

/-- Always-correct-echo transport for `download_and_run mpy250`: during the
k-th `send_message` it replies, at the first poll, with that message's
XOR-fold (250 for the length prefix `le4 250`, 0 for each all-ones chunk). -/
def echoArrs : Nat → Nat → Option (List Nat) :=
  fun k i => if i = 0 then some [if k = 0 then 250 else 0] else none

/-- Per-message transport schedules that never deliver anything. -/
def arrsSilent : Nat → Nat → Option (List Nat) := fun _ _ => none

theorem linesOf_append (a b : List Ev) : linesOf (a ++ b) = linesOf a ++ linesOf b := by
  simp [linesOf, List.filterMap_append]

theorem raisedIn_append (a b : List Ev) :
    raisedIn (a ++ b) = (raisedIn a || raisedIn b) := by
  simp [raisedIn, List.any_append]

theorem findCRLF_le : ∀ (l : List Nat) (i : Nat), findCRLF l = some i → i + 2 ≤ l.length := by
  intro l
  induction l with
  | nil => intro i h; simp [findCRLF] at h
  | cons a rest ih =>
    intro i h
    match rest with
    | [] => simp [findCRLF] at h
    | b :: t =>
      rw [findCRLF] at h
      split at h
      · cases h; simp
      · rcases Option.map_eq_some'.mp h with ⟨j, hj, rfl⟩
        have := ih j hj
        simp at this ⊢
        omega

theorem findCRLF_append : ∀ (l c : List Nat) (i : Nat),
    findCRLF l = some i → findCRLF (l ++ c) = some i := by
  intro l c
  induction l with
  | nil => intro i h; simp [findCRLF] at h
  | cons a rest ih =>
    intro i h
    match rest with
    | [] => simp [findCRLF] at h
    | b :: t =>
      rw [findCRLF] at h
      rw [List.cons_append, List.cons_append, findCRLF]
      split at h
      · cases h
        simp_all
      · rcases Option.map_eq_some'.mp h with ⟨j, hj, rfl⟩
        rename_i hcond
        rw [if_neg hcond]
        have := ih j hj
        rw [List.cons_append] at this
        rw [this]
        rfl

theorem drainLinesAux_congr : ∀ (f1 f2 : Nat) (buf : List Nat),
    buf.length ≤ f1 → buf.length ≤ f2 → drainLinesAux f1 buf = drainLinesAux f2 buf := by
  intro f1
  induction f1 with
  | zero =>
    intro f2 buf h1 h2
    have hb : buf = [] := List.length_eq_zero.mp (Nat.le_zero.mp h1)
    subst hb
    cases f2 with
    | zero => rfl
    | succ f2 => rfl
  | succ f1 ih =>
    intro f2 buf h1 h2
    cases f2 with
    | zero =>
      have hb : buf = [] := List.length_eq_zero.mp (Nat.le_zero.mp h2)
      subst hb
      rfl
    | succ f2 =>
      simp only [drainLinesAux]
      cases hf : findCRLF buf with
      | none => rfl
      | some i =>
        have hle := findCRLF_le buf i hf
        have hd : (buf.drop (i + 2)).length ≤ f1 := by
          simp [List.length_drop]; omega
        have hd2 : (buf.drop (i + 2)).length ≤ f2 := by
          simp [List.length_drop]; omega
        simp only
        rw [ih f2 _ hd hd2]

theorem drainLinesAux_eq {fuel : Nat} {buf : List Nat} (h : buf.length ≤ fuel) :
    drainLinesAux fuel buf = drainLines buf :=
  drainLinesAux_congr fuel buf.length buf h (Nat.le_refl _)

theorem drainLines_of_none {buf : List Nat} (h : findCRLF buf = none) :
    drainLines buf = ([], buf) := by
  unfold drainLines
  cases hn : buf.length with
  | zero => rfl
  | succ n => simp [drainLinesAux, h]

theorem drainLines_of_some {buf : List Nat} {i : Nat} (h : findCRLF buf = some i) :
    drainLines buf =
      (buf.take i :: (drainLines (buf.drop (i + 2))).1, (drainLines (buf.drop (i + 2))).2) := by
  have hle := findCRLF_le buf i h
  unfold drainLines
  cases hn : buf.length with
  | zero => omega
  | succ n =>
    simp only [drainLinesAux, h]
    have hd : (buf.drop (i + 2)).length ≤ n := by
      simp [List.length_drop]; omega
    rw [drainLinesAux_eq hd]
    rfl

theorem findCRLF_drainLines_rem (buf : List Nat) : findCRLF (drainLines buf).2 = none := by
  have H : ∀ (n : Nat) (buf : List Nat), buf.length = n →
      findCRLF (drainLines buf).2 = none := by
    intro n
    induction n using Nat.strong_induction_on with
    | _ n ih =>
      intro buf hn
      cases hf : findCRLF buf with
      | none => rw [drainLines_of_none hf]; exact hf
      | some i =>
        rw [drainLines_of_some hf]
        have hle := findCRLF_le buf i hf
        have hlt : (buf.drop (i + 2)).length < n := by
          simp [List.length_drop]; omega
        exact ih _ hlt _ rfl
  exact H buf.length buf rfl

theorem drainLines_append (b c : List Nat) :
    drainLines (b ++ c) =
      ((drainLines b).1 ++ (drainLines ((drainLines b).2 ++ c)).1,
       (drainLines ((drainLines b).2 ++ c)).2) := by
  have H : ∀ (n : Nat) (b : List Nat), b.length = n →
      drainLines (b ++ c) =
        ((drainLines b).1 ++ (drainLines ((drainLines b).2 ++ c)).1,
         (drainLines ((drainLines b).2 ++ c)).2) := by
    intro n
    induction n using Nat.strong_induction_on with
    | _ n ih =>
      intro b hn
      cases hf : findCRLF b with
      | none =>
        rw [drainLines_of_none hf]
        simp
      | some i =>
        have hle := findCRLF_le b i hf
        have hfc : findCRLF (b ++ c) = some i := findCRLF_append b c i hf
        rw [drainLines_of_some hf, drainLines_of_some hfc]
        rw [List.take_append_of_le_length (by omega),
          List.drop_append_of_le_length (by omega)]
        have hlt : (b.drop (i + 2)).length < n := by
          simp [List.length_drop]; omega
        have := ih _ hlt (b.drop (i + 2)) rfl
        rw [this]
        simp
  exact H b.length b rfl

theorem udb_loop_aux_congr : ∀ (f1 f2 : Nat) (st : HubState) (lf : Option (List Nat))
    (buf : List Nat), buf.length ≤ f1 → buf.length ≤ f2 →
    udb_loop_aux f1 st lf buf = udb_loop_aux f2 st lf buf := by
  intro f1
  induction f1 with
  | zero =>
    intro f2 st lf buf h1 h2
    have hb : buf = [] := List.length_eq_zero.mp (Nat.le_zero.mp h1)
    subst hb
    cases f2 with
    | zero => rfl
    | succ f2 => rfl
  | succ f1 ih =>
    intro f2 st lf buf h1 h2
    cases f2 with
    | zero =>
      have hb : buf = [] := List.length_eq_zero.mp (Nat.le_zero.mp h2)
      subst hb
      rfl
    | succ f2 =>
      simp only [udb_loop_aux]
      cases hf : findCRLF buf with
      | none => rfl
      | some i =>
        have hle := findCRLF_le buf i hf
        have hd : (buf.drop (i + 2)).length ≤ f1 := by
          simp [List.length_drop]; omega
        have hd2 : (buf.drop (i + 2)).length ≤ f2 := by
          simp [List.length_drop]; omega
        simp only
        rw [ih f2 _ _ _ hd hd2]

theorem udb_loop_aux_eq {fuel : Nat} {st lf} {buf : List Nat} (h : buf.length ≤ fuel) :
    udb_loop_aux fuel st lf buf = update_data_buffer_loop st lf buf :=
  udb_loop_aux_congr fuel buf.length st lf buf h (Nat.le_refl _)

theorem update_data_buffer_loop_of_none {st lf buf} (h : findCRLF buf = none) :
    update_data_buffer_loop st lf buf = (st, lf, buf, []) := by
  unfold update_data_buffer_loop
  cases hn : buf.length with
  | zero => rfl
  | succ n => simp [udb_loop_aux, h]

theorem update_data_buffer_loop_of_some {st lf buf i} (h : findCRLF buf = some i) :
    update_data_buffer_loop st lf buf =
      (let line := buf.take i
       let rest := buf.drop (i + 2)
       let r := handle_line st lf line
       if r.2 then (r.1.1, r.1.2.1, rest, r.1.2.2)
       else
         let q := update_data_buffer_loop r.1.1 r.1.2.1 rest
         (q.1, q.2.1, q.2.2.1, r.1.2.2 ++ q.2.2.2)) := by
  have hle := findCRLF_le buf i h
  unfold update_data_buffer_loop
  cases hn : buf.length with
  | zero => omega
  | succ n =>
    simp only [udb_loop_aux, h]
    have hd : (buf.drop (i + 2)).length ≤ n := by
      simp [List.length_drop]; omega
    rw [udb_loop_aux_eq hd]
    rfl

theorem pyChunksAux_congr : ∀ (f1 f2 n : Nat) (data : List Nat),
    data.length ≤ f1 → data.length ≤ f2 →
    pyChunksAux f1 n data = pyChunksAux f2 n data := by
  intro f1
  induction f1 with
  | zero =>
    intro f2 n data h1 h2
    have hb : data = [] := List.length_eq_zero.mp (Nat.le_zero.mp h1)
    subst hb
    cases f2 with
    | zero => rfl
    | succ f2 => rfl
  | succ f1 ih =>
    intro f2 n data h1 h2
    cases f2 with
    | zero =>
      have hb : data = [] := List.length_eq_zero.mp (Nat.le_zero.mp h2)
      subst hb
      rfl
    | succ f2 =>
      simp only [pyChunksAux]
      by_cases hc : data = [] ∨ n = 0
      · rw [if_pos hc, if_pos hc]
      · rw [if_neg hc, if_neg hc]
        have hd0 : data ≠ [] := fun he => hc (Or.inl he)
        have hn0 : n ≠ 0 := fun he => hc (Or.inr he)
        have hpos : 0 < data.length := List.length_pos.mpr hd0
        have hd : (data.drop n).length ≤ f1 := by
          simp [List.length_drop]; omega
        have hd2 : (data.drop n).length ≤ f2 := by
          simp [List.length_drop]; omega
        rw [ih f2 n _ hd hd2]

theorem pyChunksAux_eq {fuel n : Nat} {data : List Nat} (h : data.length ≤ fuel) :
    pyChunksAux fuel n data = pyChunks n data :=
  pyChunksAux_congr fuel data.length n data h (Nat.le_refl _)

/-! ## Lemmas about the line processor and the dispatcher loop -/

theorem process_line_ok {lf : Option (List Nat)} {line : List Nat}
    {q : Option (List Nat) × List Ev} (h : process_line lf line = .ok q) :
    linesOf q.2 = [] ∧ raisedIn q.2 = false ∧ q.2.all benign = true := by
  unfold process_line at h
  dsimp only at h
  split_ifs at h with h1 h2
  · cases lf with
    | some f => simp at h
    | none =>
      simp only [Except.ok.injEq] at h
      subst h
      simp [linesOf, raisedIn, benign]
  · cases lf with
    | none => simp at h
    | some f =>
      simp only [Except.ok.injEq] at h
      subst h
      simp [linesOf, raisedIn, benign]
  · cases lf with
    | some f =>
      simp only [Except.ok.injEq] at h
      subst h
      simp [linesOf, raisedIn, benign]
    | none =>
      simp only [Except.ok.injEq] at h
      subst h
      simp [linesOf, raisedIn, benign]

theorem map_state_ne_checking {line : List Nat} {ns : HubState}
    (h : map_state line = some ns) : ns ≠ .CHECKING := by
  unfold map_state at h
  split_ifs at h <;> (cases h; decide)

theorem updStateS_fst (st ns : HubState) :
    (updStateS st ns).1 = ns ∨ (updStateS st ns).1 = st := by
  unfold updStateS
  split <;> simp

theorem updStateS_events (st ns : HubState) :
    linesOf (updStateS st ns).2 = [] ∧ raisedIn (updStateS st ns).2 = false ∧
      (updStateS st ns).2.all benign = true := by
  unfold updStateS
  split <;> simp [linesOf, raisedIn, benign]

theorem state_check_lines (st : HubState) (line : List Nat) :
    linesOf (state_check st line).2 = [] := by
  unfold state_check
  cases map_state line with
  | none => rfl
  | some ns => exact (updStateS_events st ns).1

theorem state_check_raised (st : HubState) (line : List Nat) :
    raisedIn (state_check st line).2 = false := by
  unfold state_check
  cases map_state line with
  | none => rfl
  | some ns => exact (updStateS_events st ns).2.1

theorem state_check_benign (st : HubState) (line : List Nat) :
    (state_check st line).2.all benign = true := by
  unfold state_check
  cases map_state line with
  | none => rfl
  | some ns => exact (updStateS_events st ns).2.2

theorem state_check_state {st : HubState} (line : List Nat)
    (h : st ≠ HubState.CHECKING) : (state_check st line).1 ≠ HubState.CHECKING := by
  unfold state_check
  cases hm : map_state line with
  | none => exact h
  | some ns =>
    rcases updStateS_fst st ns with he | he <;> rw [he]
    · exact map_state_ne_checking hm
    · exact h

theorem linesOf_lineRx_cons (l : List Nat) (evs : List Ev) :
    linesOf (Ev.lineRx l :: evs) = l :: linesOf evs := rfl

theorem raisedIn_lineRx_cons (l : List Nat) (evs : List Ev) :
    raisedIn (Ev.lineRx l :: evs) = raisedIn evs := by
  simp [raisedIn]

theorem handle_line_raised {st lf line} (h : (handle_line st lf line).2 = true) :
    raisedIn (handle_line st lf line).1.2.2 = true := by
  unfold handle_line at h ⊢
  cases hp : process_line lf line with
  | error e => simp [hp, raisedIn]
  | ok q => simp [hp] at h

theorem handle_line_ok {st lf line} (h : (handle_line st lf line).2 = false) :
    linesOf (handle_line st lf line).1.2.2 = [line] ∧
      raisedIn (handle_line st lf line).1.2.2 = false := by
  unfold handle_line at h ⊢
  cases hp : process_line lf line with
  | error e => simp [hp] at h
  | ok q =>
    have hq := process_line_ok hp
    simp only [hp]
    constructor
    · rw [linesOf_append, linesOf_lineRx_cons, state_check_lines, hq.1]
      rfl
    · rw [raisedIn_append, raisedIn_lineRx_cons, state_check_raised, hq.2.1]
      rfl

theorem handle_line_benign (st : HubState) (lf : Option (List Nat)) (line : List Nat) :
    (handle_line st lf line).1.2.2.all benign = true := by
  unfold handle_line
  have hpre := state_check_benign st line
  cases hp : process_line lf line with
  | error e =>
    simp only [List.all_cons, List.all_append]
    simp [benign, hpre]
  | ok q =>
    have hq := (process_line_ok hp).2.2
    simp only [List.all_cons, List.all_append]
    simp [benign, hpre, hq]

theorem handle_line_state {st lf line} (h : st ≠ HubState.CHECKING) :
    (handle_line st lf line).1.1 ≠ HubState.CHECKING := by
  unfold handle_line
  have hpre := @state_check_state st line h
  cases hp : process_line lf line <;> simpa using hpre

theorem loop_lines {st lf} {buf : List Nat}
    (h : raisedIn (update_data_buffer_loop st lf buf).2.2.2 = false) :
    linesOf (update_data_buffer_loop st lf buf).2.2.2 = (drainLines buf).1 ∧
      (update_data_buffer_loop st lf buf).2.2.1 = (drainLines buf).2 := by
  have H : ∀ (n : Nat) (st : HubState) (lf : Option (List Nat)) (buf : List Nat),
      buf.length = n →
      raisedIn (update_data_buffer_loop st lf buf).2.2.2 = false →
      linesOf (update_data_buffer_loop st lf buf).2.2.2 = (drainLines buf).1 ∧
        (update_data_buffer_loop st lf buf).2.2.1 = (drainLines buf).2 := by
    intro n
    induction n using Nat.strong_induction_on with
    | _ n ih =>
      intro st lf buf hn hr
      cases hf : findCRLF buf with
      | none =>
        rw [update_data_buffer_loop_of_none hf, drainLines_of_none hf]
        simp [linesOf]
      | some i =>
        rw [update_data_buffer_loop_of_some hf] at hr ⊢
        simp only at hr ⊢
        by_cases hstop : (handle_line st lf (buf.take i)).2 = true
        · rw [if_pos hstop] at hr
          simp only at hr
          rw [handle_line_raised hstop] at hr
          cases hr
        · rw [if_neg hstop] at hr ⊢
          simp only at hr ⊢
          have hstop2 : (handle_line st lf (buf.take i)).2 = false := by
            simpa using hstop
          have hle := findCRLF_le buf i hf
          have hlt : (buf.drop (i + 2)).length < n := by
            simp [List.length_drop]; omega
          rw [raisedIn_append, Bool.or_eq_false_iff] at hr
          have hh := handle_line_ok hstop2
          have hrec := ih _ hlt _ _ _ rfl hr.2
          rw [drainLines_of_some hf]
          constructor
          · rw [linesOf_append, hh.1, hrec.1]
            rfl
          · exact hrec.2
  exact H buf.length st lf buf rfl h

theorem loop_state {st lf} {buf : List Nat} (h : st ≠ HubState.CHECKING) :
    (update_data_buffer_loop st lf buf).1 ≠ HubState.CHECKING := by
  have H : ∀ (n : Nat) (st : HubState) (lf : Option (List Nat)) (buf : List Nat),
      buf.length = n → st ≠ HubState.CHECKING →
      (update_data_buffer_loop st lf buf).1 ≠ HubState.CHECKING := by
    intro n
    induction n using Nat.strong_induction_on with
    | _ n ih =>
      intro st lf buf hn hst
      cases hf : findCRLF buf with
      | none => rw [update_data_buffer_loop_of_none hf]; exact hst
      | some i =>
        rw [update_data_buffer_loop_of_some hf]
        simp only
        have hnext := @handle_line_state st lf (buf.take i) hst
        by_cases hstop : (handle_line st lf (buf.take i)).2 = true
        · rw [if_pos hstop]
          exact hnext
        · rw [if_neg hstop]
          simp only
          have hle := findCRLF_le buf i hf
          have hlt : (buf.drop (i + 2)).length < n := by
            simp [List.length_drop]; omega
          exact ih _ hlt _ _ _ rfl hnext
  exact H buf.length st lf buf rfl h

theorem loop_benign (st : HubState) (lf : Option (List Nat)) (buf : List Nat) :
    (update_data_buffer_loop st lf buf).2.2.2.all benign = true := by
  have H : ∀ (n : Nat) (st : HubState) (lf : Option (List Nat)) (buf : List Nat),
      buf.length = n →
      (update_data_buffer_loop st lf buf).2.2.2.all benign = true := by
    intro n
    induction n using Nat.strong_induction_on with
    | _ n ih =>
      intro st lf buf hn
      cases hf : findCRLF buf with
      | none => rw [update_data_buffer_loop_of_none hf]; rfl
      | some i =>
        rw [update_data_buffer_loop_of_some hf]
        simp only
        have hb := handle_line_benign st lf (buf.take i)
        by_cases hstop : (handle_line st lf (buf.take i)).2 = true
        · rw [if_pos hstop]
          exact hb
        · rw [if_neg hstop]
          simp only
          have hle := findCRLF_le buf i hf
          have hlt : (buf.drop (i + 2)).length < n := by
            simp [List.length_drop]; omega
          have hrec := ih _ hlt (handle_line st lf (buf.take i)).1.1
            (handle_line st lf (buf.take i)).1.2.1 (buf.drop (i + 2)) rfl
          simp [List.all_append, hb, hrec]
  exact H buf.length st lf buf rfl

/-! ## Lemmas about `update_data_buffer` and `deliverAll` -/

theorem update_data_buffer_not_checking {h : Hub} {data : List Nat}
    (hst : h.state ≠ .CHECKING) :
    update_data_buffer h data =
      ({ h with
          state := (update_data_buffer_loop h.state h.log_file (h.buf ++ data)).1,
          log_file := (update_data_buffer_loop h.state h.log_file (h.buf ++ data)).2.1,
          buf := (update_data_buffer_loop h.state h.log_file (h.buf ++ data)).2.2.1 },
       (update_data_buffer_loop h.state h.log_file (h.buf ++ data)).2.2.2) := by
  unfold update_data_buffer
  rw [if_neg hst]

theorem update_data_buffer_checking {h : Hub} {data : List Nat} {b : Nat}
    (hst : h.state = .CHECKING) (hb : data.getLast? = some b) :
    update_data_buffer h data = ({ h with reply := some b }, [Ev.checksumByte b]) := by
  unfold update_data_buffer
  rw [if_pos hst, hb]

theorem update_data_buffer_benign (h : Hub) (data : List Nat) :
    (update_data_buffer h data).2.all benign = true := by
  unfold update_data_buffer
  by_cases hst : h.state = .CHECKING
  · rw [if_pos hst]
    cases data.getLast? <;> simp [benign]
  · rw [if_neg hst]
    exact loop_benign _ _ _

theorem udb_step {h : Hub} {d : List Nat} (hst : h.state ≠ HubState.CHECKING)
    (hr : raisedIn (update_data_buffer h d).2 = false) :
    linesOf (update_data_buffer h d).2 = (drainLines (h.buf ++ d)).1 ∧
    (update_data_buffer h d).1.buf = (drainLines (h.buf ++ d)).2 ∧
    (update_data_buffer h d).1.state ≠ HubState.CHECKING := by
  rw [update_data_buffer_not_checking hst] at hr ⊢
  simp only at hr ⊢
  have hloop := @loop_lines h.state h.log_file (h.buf ++ d) hr
  exact ⟨hloop.1, hloop.2, loop_state hst⟩

theorem deliverAll_drain : ∀ (frags : List (List Nat)) (h : Hub),
    h.state ≠ .CHECKING → findCRLF h.buf = none →
    raisedIn (deliverAll h frags).2 = false →
    linesOf (deliverAll h frags).2 = (drainLines (h.buf ++ frags.flatten)).1 ∧
    (deliverAll h frags).1.buf = (drainLines (h.buf ++ frags.flatten)).2 ∧
    (deliverAll h frags).1.state ≠ .CHECKING := by
  intro frags
  induction frags with
  | nil =>
    intro h hst hbuf hr
    refine ⟨?_, ?_, hst⟩ <;>
      simp [deliverAll, linesOf, drainLines_of_none hbuf]
  | cons d ds ih =>
    intro h hst hbuf hr
    simp only [deliverAll] at hr ⊢
    rw [raisedIn_append, Bool.or_eq_false_iff] at hr
    have hstep := udb_step hst hr.1
    have hih := ih (update_data_buffer h d).1 hstep.2.2
      (by rw [hstep.2.1]; exact findCRLF_drainLines_rem _) hr.2
    rw [linesOf_append, hstep.1, hih.1, hstep.2.1]
    have hdr := drainLines_append (h.buf ++ d) ds.flatten
    rw [List.flatten_cons, ← List.append_assoc, hdr]
    refine ⟨rfl, ?_, hih.2.2⟩
    rw [hih.2.1, hstep.2.1]

/-! ## Lemmas about the checksum wait -/

theorem update_state_to_checking (h : Hub) :
    (update_state h .CHECKING).1 = { h with state := .CHECKING } := by
  unfold update_state updStateS
  by_cases hs : HubState.CHECKING ≠ h.state
  · rw [if_pos hs]
  · rw [if_neg hs]
    simp only [ne_eq, not_not] at hs
    rw [← hs]

/-- With no arrivals and an empty reply slot, the wait loop spends all its
fuel (one 10 ms sleep per iteration), leaves the receiver untouched and
times out. -/
theorem wfc_loop_silent (arr : Nat → Option (List Nat)) (harr : ∀ j, arr j = none) :
    ∀ (fuel i : Nat) (h : Hub), h.reply = none →
    wfc_loop arr i fuel h = ⟨true, none, h, List.replicate fuel (Ev.sleep 10), fuel⟩ := by
  intro fuel
  induction fuel with
  | zero => intro i h hr; rfl
  | succ fuel ih =>
    intro i h hr
    have hstep : wfc_step arr i h = (h, []) := by
      unfold wfc_step
      rw [harr i]
    simp only [wfc_loop, hstep, hr, ih (i + 1) h hr, List.replicate_succ]
    rfl

/-- If the transport stays silent for `k` polls and then delivers the single
byte `c` during the (k+1)-th sleep, the wait loop (running while CHECKING
with an empty reply slot) succeeds at poll `k + 1` with reply `c`, resets
the reply slot and moves the state to IDLE. -/
theorem wfc_loop_deliver (arr : Nat → Option (List Nat)) :
    ∀ (k fuel i : Nat) (h : Hub) (c : Nat), k < fuel → h.reply = none →
    h.state = .CHECKING →
    (∀ m, m < k → arr (i + m) = none) → arr (i + k) = some [c] →
    wfc_loop arr i fuel h =
      ⟨false, some c, { h with reply := none, state := .IDLE },
       List.replicate k (Ev.sleep 10) ++
         [Ev.sleep 10, Ev.checksumByte c, Ev.stateChange .IDLE],
       k + 1⟩ := by
  intro k
  induction k with
  | zero =>
    intro fuel i h c hk hr hst hpre hdel
    match fuel with
    | 0 => omega
    | fuel + 1 =>
      rw [Nat.add_zero] at hdel
      have hstep : wfc_step arr i h = ({ h with reply := some c }, [Ev.checksumByte c]) := by
        unfold wfc_step
        rw [hdel]
        exact update_data_buffer_checking hst (by simp)
      simp only [wfc_loop, hstep]
      have hupd : update_state { h with reply := none } .IDLE =
          ({ h with reply := none, state := .IDLE }, [Ev.stateChange .IDLE]) := by
        unfold update_state updStateS
        rw [if_pos (by rw [hst]; decide)]
      simp only [hupd]
      rfl
  | succ k ih =>
    intro fuel i h c hk hr hst hpre hdel
    match fuel with
    | 0 => omega
    | fuel + 1 =>
      have hstep : wfc_step arr i h = (h, []) := by
        have h0 : arr i = none := by
          have := hpre 0 (Nat.succ_pos k)
          rwa [Nat.add_zero] at this
        unfold wfc_step
        rw [h0]
      have hrec := ih fuel (i + 1) h c (by omega) hr hst
        (fun m hm => by
          have := hpre (m + 1) (by omega)
          rwa [show i + (m + 1) = i + 1 + m by omega] at this)
        (by
          have : i + (k + 1) = i + 1 + k := by omega
          rwa [this] at hdel)
      simp only [wfc_loop, hstep, hr, hrec, List.replicate_succ]
      rfl

/-- When the wait loop returns (rather than timing out), the value it
returns was read from a non-empty reply slot, and the slot is cleared. -/
theorem wfc_loop_success (arr : Nat → Option (List Nat)) :
    ∀ (fuel i : Nat) (h : Hub),
    (wfc_loop arr i fuel h).timedOut = false →
    (wfc_loop arr i fuel h).reply ≠ none ∧ (wfc_loop arr i fuel h).hub.reply = none := by
  intro fuel
  induction fuel with
  | zero => intro i h ht; simp [wfc_loop] at ht
  | succ fuel ih =>
    intro i h ht
    rw [wfc_loop] at ht ⊢
    simp only at ht ⊢
    cases hrep : (wfc_step arr i h).1.reply with
    | some r =>
      simp only [hrep] at ht ⊢
      refine ⟨by simp, ?_⟩
      unfold update_state
      rfl
    | none =>
      simp only [hrep] at ht ⊢
      exact ih (i + 1) (wfc_step arr i h).1 ht

theorem wait_for_checksum_eq (arr : Nat → Option (List Nat)) (h : Hub) :
    wait_for_checksum arr h =
      { wfc_loop arr 0 50 { h with state := .CHECKING } with
        events := (update_state h .CHECKING).2 ++
          (wfc_loop arr 0 50 { h with state := .CHECKING }).events } := by
  unfold wait_for_checksum
  simp only
  rw [update_state_to_checking]

/-! ## Lemmas about chunking, `write` and `send_message` -/

theorem pyChunks_nil (n : Nat) : pyChunks n [] = [] := rfl

theorem pyChunks_cons {n : Nat} {data : List Nat} (hd : data ≠ []) (hn : n ≠ 0) :
    pyChunks n data = data.take n :: pyChunks n (data.drop n) := by
  unfold pyChunks
  cases hm : data.length with
  | zero => exact absurd (List.length_eq_zero.mp hm) hd
  | succ m =>
    simp only [pyChunksAux]
    rw [if_neg (fun hor => hor.elim hd hn)]
    have hpos : 0 < data.length := List.length_pos.mpr hd
    have hle : (data.drop n).length ≤ m := by
      simp [List.length_drop]; omega
    rw [pyChunksAux_eq hle]
    rfl

theorem pyChunks_flatten (n : Nat) (hn : n ≠ 0) (data : List Nat) :
    (pyChunks n data).flatten = data := by
  have H : ∀ (m : Nat) (data : List Nat), data.length = m →
      (pyChunks n data).flatten = data := by
    intro m
    induction m using Nat.strong_induction_on with
    | _ m ih =>
      intro data hm
      by_cases hd : data = []
      · subst hd
        rw [pyChunks_nil]
        rfl
      · rw [pyChunks_cons hd hn]
        have hpos : 0 < data.length := List.length_pos.mpr hd
        have hlt : (data.drop n).length < m := by
          simp [List.length_drop]; omega
        rw [List.flatten_cons, ih _ hlt _ rfl, List.take_append_drop]
  exact H data.length data rfl

theorem pyChunks_length_le (n : Nat) (data : List Nat) :
    ∀ c ∈ pyChunks n data, c.length ≤ n := by
  have H : ∀ (m : Nat) (data : List Nat), data.length = m →
      ∀ c ∈ pyChunks n data, c.length ≤ n := by
    intro m
    induction m using Nat.strong_induction_on with
    | _ m ih =>
      intro data hm c hc
      by_cases hd : data = []
      · subst hd
        rw [pyChunks_nil] at hc
        cases hc
      · by_cases hn : n = 0
        · unfold pyChunks at hc
          cases hm : data.length with
          | zero => exact absurd (List.length_eq_zero.mp hm) hd
          | succ m =>
            rw [hm] at hc
            simp only [pyChunksAux] at hc
            rw [if_pos (Or.inr hn)] at hc
            cases hc
        · rw [pyChunks_cons hd hn] at hc
          rcases List.mem_cons.mp hc with rfl | hc2
          · simp [List.length_take]
          · have hpos : 0 < data.length := List.length_pos.mpr hd
            have hlt : (data.drop n).length < m := by
              simp [List.length_drop]; omega
            exact ih _ hlt _ rfl c hc2
  exact H data.length data rfl

theorem txJoin_append (a b : List Ev) : txJoin (a ++ b) = txJoin a ++ txJoin b := by
  simp [txJoin, List.filterMap_append]

theorem write_txJoin (data : List Nat) : txJoin (write data) = data := by
  have H : ∀ (cs : List (List Nat)),
      txJoin (cs.flatMap fun chunk => [Ev.sleep 50, Ev.tx chunk]) = cs.flatten := by
    intro cs
    induction cs with
    | nil => rfl
    | cons c cs ih =>
      rw [List.flatMap_cons, txJoin_append, ih, List.flatten_cons]
      simp [txJoin]
  rw [write, H, pyChunks_flatten 20 (by omega)]

theorem write_mem {data : List Nat} {e : Ev} (he : e ∈ write data) :
    e = Ev.sleep 50 ∨ ∃ c, e = Ev.tx c := by
  unfold write at he
  rcases List.mem_flatMap.mp he with ⟨c, hc, hm⟩
  simp only [List.mem_cons, List.mem_singleton] at hm
  rcases hm with rfl | rfl | h
  · exact Or.inl rfl
  · exact Or.inr ⟨c, rfl⟩
  · cases h

theorem write_not_sleep10 (data : List Nat) : Ev.sleep 10 ∉ write data := by
  intro h
  rcases write_mem h with he | ⟨c, he⟩ <;> simp at he

theorem write_not_runWait (data : List Nat) : Ev.runWait ∉ write data := by
  intro h
  rcases write_mem h with he | ⟨c, he⟩ <;> simp at he

theorem send_message_events {arr : Nat → Option (List Nat)} {h : Hub} {data : List Nat}
    (hlen : ¬ data.length > 100) :
    (send_message arr h data).events = write data ++ (wait_for_checksum arr h).events := by
  unfold send_message
  rw [if_neg hlen]
  simp only
  split
  · rfl
  · split
    · rfl
    · split <;> rfl

theorem send_message_hub {arr : Nat → Option (List Nat)} {h : Hub} {data : List Nat}
    (hlen : ¬ data.length > 100) :
    (send_message arr h data).hub = (wait_for_checksum arr h).hub := by
  unfold send_message
  rw [if_neg hlen]
  simp only
  split
  · rfl
  · split
    · rfl
    · split <;> rfl

theorem send_message_polls {arr : Nat → Option (List Nat)} {h : Hub} {data : List Nat}
    (hlen : ¬ data.length > 100) :
    (send_message arr h data).polls = (wait_for_checksum arr h).polls := by
  unfold send_message
  rw [if_neg hlen]
  simp only
  split
  · rfl
  · split
    · rfl
    · split <;> rfl

theorem send_message_err_timeout {arr : Nat → Option (List Nat)} {h : Hub} {data : List Nat}
    (hlen : ¬ data.length > 100) (ht : (wait_for_checksum arr h).timedOut = true) :
    (send_message arr h data).err = some .ChecksumTimeout := by
  unfold send_message
  rw [if_neg hlen]
  simp only
  rw [if_pos ht]

theorem send_message_err_ok {arr : Nat → Option (List Nat)} {h : Hub} {data : List Nat}
    (hlen : ¬ data.length > 100) (ht : (wait_for_checksum arr h).timedOut = false)
    (hrep : (wait_for_checksum arr h).reply = some (xorFold data)) :
    (send_message arr h data).err = none := by
  unfold send_message
  rw [if_neg hlen]
  simp only
  rw [if_neg (by rw [ht]; exact Bool.false_ne_true), hrep]
  simp only
  rw [if_neg (by simp)]

theorem wait_for_checksum_success (arr : Nat → Option (List Nat)) (h : Hub)
    (ht : (wait_for_checksum arr h).timedOut = false) :
    (wait_for_checksum arr h).reply ≠ none ∧ (wait_for_checksum arr h).hub.reply = none := by
  rw [wait_for_checksum_eq] at ht ⊢
  exact wfc_loop_success arr 50 0 _ ht

/-! ## Benignity of inbound/wait events, and abort propagation -/

theorem benign_not_tx {e : Ev} (h : benign e = true) : isTx e = false := by
  cases e <;> simp [benign, isTx] at h ⊢

theorem benign_not_runWait {e : Ev} (h : benign e = true) : e ≠ Ev.runWait := by
  cases e <;> simp [benign] at h ⊢

theorem update_state_benign (h : Hub) (s : HubState) :
    (update_state h s).2.all benign = true := by
  unfold update_state updStateS
  split <;> rfl

theorem wfc_step_benign (arr : Nat → Option (List Nat)) (i : Nat) (h : Hub) :
    (wfc_step arr i h).2.all benign = true := by
  unfold wfc_step
  cases arr i with
  | none => rfl
  | some frag => exact update_data_buffer_benign h frag

theorem wfc_loop_benign (arr : Nat → Option (List Nat)) :
    ∀ (fuel i : Nat) (h : Hub), (wfc_loop arr i fuel h).events.all benign = true := by
  intro fuel
  induction fuel with
  | zero => intro i h; rfl
  | succ fuel ih =>
    intro i h
    rw [wfc_loop]
    simp only
    have hstep := wfc_step_benign arr i h
    cases hrep : (wfc_step arr i h).1.reply with
    | some r =>
      simp only [hrep]
      have hupd := update_state_benign { (wfc_step arr i h).1 with reply := none } .IDLE
      simp [List.all_append, benign, hstep, hupd]
    | none =>
      simp only [hrep]
      have hrec := ih (i + 1) (wfc_step arr i h).1
      simp [List.all_append, benign, hstep, hrec]

theorem wait_for_checksum_benign (arr : Nat → Option (List Nat)) (h : Hub) :
    (wait_for_checksum arr h).events.all benign = true := by
  rw [wait_for_checksum_eq]
  simp only
  rw [List.all_append]
  have h1 := update_state_benign h .CHECKING
  have h2 := wfc_loop_benign arr 50 0 { h with state := .CHECKING }
  simp [h1, h2]

theorem send_message_not_runWait (arr : Nat → Option (List Nat)) (h : Hub)
    (data : List Nat) : Ev.runWait ∉ (send_message arr h data).events := by
  by_cases hlen : data.length > 100
  · unfold send_message
    rw [if_pos hlen]
    simp
  · rw [send_message_events hlen]
    intro hm
    rcases List.mem_append.mp hm with hm | hm
    · exact write_not_runWait data hm
    · have hb := wait_for_checksum_benign arr h
      rw [List.all_eq_true] at hb
      exact benign_not_runWait (hb _ hm) rfl

theorem send_chunks_not_runWait (arrs : Nat → Nat → Option (List Nat)) :
    ∀ (cs : List (List Nat)) (k : Nat) (h : Hub),
    Ev.runWait ∉ (send_chunks arrs k h cs).2.2 := by
  intro cs
  induction cs with
  | nil => intro k h hm; cases hm
  | cons c rest ih =>
    intro k h
    simp only [send_chunks]
    cases he : (send_message (arrs k) h c).err with
    | some e =>
      simp only
      exact send_message_not_runWait (arrs k) h c
    | none =>
      simp only
      intro hm
      rcases List.mem_append.mp hm with hm | hm
      · exact send_message_not_runWait (arrs k) h c hm
      · exact ih (k + 1) (send_message (arrs k) h c).hub hm

theorem download_and_run_abort (arrs : Nat → Nat → Option (List Nat)) (h : Hub)
    (mpy : List Nat) (e : SendErr) (herr : (download_and_run arrs h mpy).1 = some e) :
    Ev.runWait ∉ (download_and_run arrs h mpy).2.2 := by
  unfold download_and_run at herr ⊢
  simp only at herr ⊢
  cases h0 : (send_message (arrs 0) h (le4 mpy.length)).err with
  | some e0 =>
    simp only [h0] at herr ⊢
    exact send_message_not_runWait _ _ _
  | none =>
    simp only [h0] at herr ⊢
    cases hq : (send_chunks arrs 1 (send_message (arrs 0) h (le4 mpy.length)).hub
        (pyChunks 100 mpy)).1 with
    | some e1 =>
      simp only [hq] at herr ⊢
      intro hm
      rcases List.mem_append.mp hm with hm | hm
      · exact send_message_not_runWait _ _ _ hm
      · exact send_chunks_not_runWait arrs _ _ _ hm
    | none =>
      simp only [hq] at herr
      cases herr

theorem map_state_inv {line : List Nat} {ns : HubState} (h : map_state line = some ns) :
    (line = bytes ">>>> IDLE" ∧ ns = .IDLE) ∨
    (line = bytes ">>>> RUNNING" ∧ ns = .RUNNING) ∨
    (line = bytes ">>>> ERROR" ∧ ns = .ERROR) := by
  unfold map_state at h
  split_ifs at h with h1 h2 h3
  · cases h; exact Or.inl ⟨h1, rfl⟩
  · cases h; exact Or.inr (Or.inl ⟨h2, rfl⟩)
  · cases h; exact Or.inr (Or.inr ⟨h3, rfl⟩)

theorem update_state_sleep10 (h : Hub) (s : HubState) :
    (update_state h s).2.count (Ev.sleep 10) = 0 := by
  unfold update_state updStateS
  split <;> rfl

theorem write_sleep10 (data : List Nat) : (write data).count (Ev.sleep 10) = 0 :=
  List.count_eq_zero.mpr (write_not_sleep10 data)

theorem txJoin_of_benign {evs : List Ev} (h : evs.all benign = true) :
    txJoin evs = [] := by
  unfold txJoin
  rw [List.all_eq_true] at h
  have hnil : (evs.filterMap fun e => match e with | Ev.tx c => some c | _ => none)
      = [] := by
    rw [List.filterMap_eq_nil_iff]
    intro e he
    have := benign_not_tx (h e he)
    cases e <;> simp [isTx] at this ⊢
  rw [hnil]
  rfl

theorem send_message_len_of_ok {arr : Nat → Option (List Nat)} {h : Hub}
    {data : List Nat} (he : (send_message arr h data).err = none) :
    ¬ data.length > 100 := by
  intro hlen
  unfold send_message at he
  rw [if_pos hlen] at he
  simp at he

/-- Whatever the outcome of the checksum wait, the transport bytes a
`send_message` call writes are exactly the payload, in order. -/
theorem send_message_txJoin {arr : Nat → Option (List Nat)} {h : Hub}
    {data : List Nat} (hlen : ¬ data.length > 100) :
    txJoin (send_message arr h data).events = data := by
  rw [send_message_events hlen, txJoin_append, write_txJoin,
    txJoin_of_benign (wait_for_checksum_benign arr h), List.append_nil]

/-- When the chunk loop completes without error, the transport bytes it
wrote are exactly the chunks, concatenated in order. -/
theorem send_chunks_txJoin (arrs : Nat → Nat → Option (List Nat)) :
    ∀ (cs : List (List Nat)) (k : Nat) (h : Hub),
    (send_chunks arrs k h cs).1 = none →
    txJoin (send_chunks arrs k h cs).2.2 = cs.flatten := by
  intro cs
  induction cs with
  | nil => intro k h he; rfl
  | cons c rest ih =>
    intro k h he
    simp only [send_chunks] at he ⊢
    cases hc : (send_message (arrs k) h c).err with
    | some e =>
      simp only [hc] at he
      cases he
    | none =>
      simp only [hc] at he ⊢
      rw [txJoin_append, ih (k + 1) _ he, List.flatten_cons,
        send_message_txJoin (send_message_len_of_ok hc)]

/-- When `download_and_run` completes without error, everything written to
the transport is the 4-byte little-endian length prefix followed by the
program bytes in order, and the last recorded event is the entry into
`wait_until_not_running`. -/
theorem download_and_run_success (arrs : Nat → Nat → Option (List Nat)) (h : Hub)
    (mpy : List Nat) (he : (download_and_run arrs h mpy).1 = none) :
    txJoin (download_and_run arrs h mpy).2.2 = le4 mpy.length ++ mpy ∧
    (download_and_run arrs h mpy).2.2.getLast? = some Ev.runWait := by
  unfold download_and_run at he ⊢
  simp only at he ⊢
  cases h0 : (send_message (arrs 0) h (le4 mpy.length)).err with
  | some e0 =>
    simp only [h0] at he
    cases he
  | none =>
    simp only [h0] at he ⊢
    cases hq : (send_chunks arrs 1 (send_message (arrs 0) h (le4 mpy.length)).hub
        (pyChunks 100 mpy)).1 with
    | some e1 =>
      simp only [hq] at he
      cases he
    | none =>
      simp only [hq] at he ⊢
      constructor
      · rw [txJoin_append, txJoin_append,
          send_message_txJoin (by simp [le4]),
          send_chunks_txJoin arrs _ _ _ hq,
          pyChunks_flatten 100 (by omega)]
        simp [txJoin]
      · rw [List.getLast?_concat]

/-! ## The claims -/

/-- C1: for every payload P with 0 < len(P) ≤ 100, if the transport delivers
the XOR-fold of P's bytes as the checksum reply (here: as the sole delivered
fragment, during some poll j of the checksum wait, no stale reply pending),
`send_message P` succeeds (no error) and leaves Status = Idle. -/
theorem spec_C1_send_message_echo_succeeds (data : List Nat) (h : Hub) (j : Nat)
    (hlen1 : 0 < data.length) (hlen2 : data.length ≤ 100)
    (hrep : h.reply = none) (hj : j < 50) :
    (send_message (echoAt j (xorFold data)) h data).err = none ∧
    (send_message (echoAt j (xorFold data)) h data).hub.state = .IDLE := by
  have hlen : ¬ data.length > 100 := by omega
  have hwl := wfc_loop_deliver (echoAt j (xorFold data)) j 50 0
    { h with state := .CHECKING } (xorFold data) hj hrep rfl
    (fun m hm => by unfold echoAt; rw [if_neg (by omega)])
    (by unfold echoAt; rw [Nat.zero_add, if_pos rfl])
  have hw := wait_for_checksum_eq (echoAt j (xorFold data)) h
  have ht : (wait_for_checksum (echoAt j (xorFold data)) h).timedOut = false := by
    rw [hw]
    simp only
    rw [hwl]
  have hrep2 : (wait_for_checksum (echoAt j (xorFold data)) h).reply
      = some (xorFold data) := by
    rw [hw]
    simp only
    rw [hwl]
  refine ⟨send_message_err_ok hlen ht hrep2, ?_⟩
  rw [send_message_hub hlen, hw]
  simp only
  rw [hwl]

/-- Witness for C1: a concrete two-byte payload echoed at the first poll. -/
theorem spec_C1_witness :
    (send_message (echoAt 0 (xorFold [1, 2])) hub0 [1, 2]).err = none ∧
    (send_message (echoAt 0 (xorFold [1, 2])) hub0 [1, 2]).hub.state = .IDLE :=
  spec_C1_send_message_echo_succeeds [1, 2] hub0 0 (by decide) (by decide) rfl (by decide)

/-- C3 (amended): if no checksum reply ever arrives, the checksum wait runs
its full bound of exactly 50 polls of 10 ms each and `send_message` fails
with ChecksumTimeout — but Status is left at AwaitingChecksum (CHECKING):
the code resets it to Idle only in the success branch, not on timeout. -/
theorem spec_C3_timeout (arr : Nat → Option (List Nat)) (h : Hub) (data : List Nat)
    (harr : ∀ i, arr i = none) (hrep : h.reply = none) (hlen : data.length ≤ 100) :
    (send_message arr h data).err = some .ChecksumTimeout ∧
    (send_message arr h data).polls = 50 ∧
    (send_message arr h data).events.count (Ev.sleep 10) = 50 ∧
    (send_message arr h data).hub = { h with state := .CHECKING } := by
  have hlen2 : ¬ data.length > 100 := by omega
  have hwl := wfc_loop_silent arr harr 50 0 { h with state := .CHECKING } hrep
  have hw := wait_for_checksum_eq arr h
  have ht : (wait_for_checksum arr h).timedOut = true := by
    rw [hw]
    simp only
    rw [hwl]
  refine ⟨send_message_err_timeout hlen2 ht, ?_, ?_, ?_⟩
  · rw [send_message_polls hlen2, hw]
    simp only
    rw [hwl]
  · rw [send_message_events hlen2, List.count_append, write_sleep10, hw]
    simp only
    rw [List.count_append, update_state_sleep10, hwl]
    simp
  · rw [send_message_hub hlen2, hw]
    simp only
    rw [hwl]

/-- Counterexample for C3 as stated: on timeout the hub status is left at
CHECKING (AwaitingChecksum), not reset to Idle as the claim asserts. -/
theorem spec_C3_counterexample :
    (send_message arrSilent hub0 [0]).err = some .ChecksumTimeout ∧
    (send_message arrSilent hub0 [0]).hub.state = .CHECKING ∧
    (send_message arrSilent hub0 [0]).hub.state ≠ .IDLE := by decide

/-- Witness for C3 (amended) at a concrete input. -/
theorem spec_C3_witness :
    (send_message arrSilent hub0 [0]).err = some .ChecksumTimeout ∧
    (send_message arrSilent hub0 [0]).polls = 50 :=
  ⟨(spec_C3_timeout arrSilent hub0 [0] (fun _ => rfl) rfl (by decide)).1,
   (spec_C3_timeout arrSilent hub0 [0] (fun _ => rfl) rfl (by decide)).2.1⟩

/-- C5 (amended): `send_message` fails with ValueTooLarge exactly when
len(payload) > 100, and in that case nothing is written and the receiver is
untouched; the empty payload is NOT rejected (the code checks only the upper
bound). -/
theorem spec_C5_value_too_large (arr : Nat → Option (List Nat)) (h : Hub)
    (data : List Nat) :
    (data.length > 100 → send_message arr h data = ⟨some .ValueTooLarge, h, [], 0⟩) ∧
    ((send_message arr h data).err = some .ValueTooLarge → data.length > 100) := by
  constructor
  · intro hgt
    unfold send_message
    rw [if_pos hgt]
  · intro herr
    by_contra hle
    unfold send_message at herr
    rw [if_neg hle] at herr
    simp only at herr
    split at herr
    · simp at herr
    · split at herr
      · simp at herr
      · split at herr <;> simp at herr

/-- Counterexample for C5 as stated: the empty payload violates
`0 < len(payload)` yet is not rejected with ValueTooLarge — the call
proceeds to the checksum wait and fails with ChecksumTimeout instead. -/
theorem spec_C5_counterexample :
    (send_message arrSilent hub0 []).err = some .ChecksumTimeout ∧
    (send_message arrSilent hub0 []).err ≠ some .ValueTooLarge := by decide

/-- Witness for C5 (amended) at a concrete 101-byte payload. -/
theorem spec_C5_witness :
    send_message arrSilent hub0 (List.replicate 101 0) =
      ⟨some .ValueTooLarge, hub0, [], 0⟩ :=
  (spec_C5_value_too_large arrSilent hub0 (List.replicate 101 0)).1 (by decide)

/-- C8: a fragment delivered while Status = CHECKING stores exactly its last
byte into the reply slot and changes nothing else (buffer, state, log file
untouched; no line extracted — the only event is the stored checksum byte);
and the checksum waiter clears the slot when it reads it. -/
theorem spec_C8_checking_branch :
    (∀ (h : Hub) (data : List Nat) (b : Nat), h.state = .CHECKING →
      data.getLast? = some b →
      update_data_buffer h data = ({ h with reply := some b }, [Ev.checksumByte b])) ∧
    (∀ (arr : Nat → Option (List Nat)) (h : Hub),
      (wait_for_checksum arr h).timedOut = false →
      (wait_for_checksum arr h).hub.reply = none) := by
  constructor
  · intro h data b hst hb
    exact update_data_buffer_checking hst hb
  · intro arr h ht
    exact (wait_for_checksum_success arr h ht).2

/-- Witness for C8: a three-byte co-delivered fragment while CHECKING. -/
theorem spec_C8_witness :
    update_data_buffer { hub0 with state := .CHECKING } [7, 8, 9] =
      ({ hub0 with state := .CHECKING, reply := some 9 }, [Ev.checksumByte 9]) ∧
    (wait_for_checksum (echoAt 0 9) hub0).hub.reply = none :=
  ⟨spec_C8_checking_branch.1 { hub0 with state := .CHECKING } [7, 8, 9] 9 rfl (by decide),
   spec_C8_checking_branch.2 (echoAt 0 9) hub0 (by decide)⟩

/-- C10: `wait_for_checksum` either times out (raising) or returns a value
read from a non-None reply slot, so the reply compared in `send_message` is
never None and the NoReply ("Did not receive reply.") branch is unreachable:
no execution of `send_message` produces the NoReply error. -/
theorem spec_C10_no_reply_unreachable :
    (∀ (arr : Nat → Option (List Nat)) (h : Hub),
      (wait_for_checksum arr h).timedOut = false →
      (wait_for_checksum arr h).reply ≠ none) ∧
    (∀ (arr : Nat → Option (List Nat)) (h : Hub) (data : List Nat),
      (send_message arr h data).err ≠ some .NoReply) := by
  constructor
  · intro arr h ht
    exact (wait_for_checksum_success arr h ht).1
  · intro arr h data herr
    by_cases hlen : data.length > 100
    · unfold send_message at herr
      rw [if_pos hlen] at herr
      simp at herr
    · unfold send_message at herr
      rw [if_neg hlen] at herr
      simp only at herr
      by_cases ht : (wait_for_checksum arr h).timedOut = true
      · rw [if_pos ht] at herr
        simp at herr
      · rw [if_neg ht] at herr
        have hne := (wait_for_checksum_success arr h (by simpa using ht)).1
        cases hrep : (wait_for_checksum arr h).reply with
        | none => exact hne hrep
        | some r =>
          rw [hrep] at herr
          simp only at herr
          split at herr <;> simp at herr

/-- Witness for C10 at a concrete echoing transport. -/
theorem spec_C10_witness :
    (wait_for_checksum (echoAt 0 5) hub0).timedOut = false ∧
    (wait_for_checksum (echoAt 0 5) hub0).reply ≠ none ∧
    (send_message (echoAt 0 5) hub0 [5]).err ≠ some .NoReply :=
  ⟨by decide, spec_C10_no_reply_unreachable.1 (echoAt 0 5) hub0 (by decide),
   spec_C10_no_reply_unreachable.2 (echoAt 0 5) hub0 [5]⟩

/-- C2 (amended): for every sequence of inbound fragments delivered outside
the AwaitingChecksum phase, as long as no extracted line raises a
line-processor error (log-marker desync), the dispatcher hands the line
processor exactly the CR-LF-terminated lines of the concatenated stream, in
order, independent of fragment boundaries; in particular b"ab" then
b"c\r\ndef\r\n" yields exactly abc then def. (An error aborts the current
delivery's extraction loop, leaving later complete lines buffered, which is
the correction to the unconditional claim.) -/
theorem spec_C2_line_framing :
    (∀ (frags : List (List Nat)) (h : Hub), h.buf = [] → h.state ≠ .CHECKING →
      raisedIn (deliverAll h frags).2 = false →
      linesOf (deliverAll h frags).2 = (drainLines frags.flatten).1) ∧
    linesOf (deliverAll hub0
        [bytes "ab", bytes "c" ++ [13, 10] ++ bytes "def" ++ [13, 10]]).2
      = [bytes "abc", bytes "def"] := by
  constructor
  · intro frags h hbuf hst hr
    have hd := (deliverAll_drain frags h hst (by rw [hbuf]; rfl) hr).1
    rwa [hbuf, List.nil_append] at hd
  · decide

/-- Counterexample for C2 as stated: delivering the single fragment
b"PB_EOF\r\nab\r\n" to a fresh receiver makes the first line raise
(no log file is open), which aborts the extraction loop, so the line "ab"
is never handed on and the produced lines differ from those of the
concatenated stream. -/
theorem spec_C2_counterexample :
    linesOf (deliverAll hub0 [bytes "PB_EOF" ++ [13, 10] ++ bytes "ab" ++ [13, 10]]).2 ≠
      (drainLines ([bytes "PB_EOF" ++ [13, 10] ++ bytes "ab" ++ [13, 10]] :
        List (List Nat)).flatten).1 := by decide

/-- Witness for C2 (amended): the spec's own two-fragment example. -/
theorem spec_C2_witness :
    raisedIn (deliverAll hub0
      [bytes "ab", bytes "c" ++ [13, 10] ++ bytes "def" ++ [13, 10]]).2 = false ∧
    linesOf (deliverAll hub0
        [bytes "ab", bytes "c" ++ [13, 10] ++ bytes "def" ++ [13, 10]]).2 =
      (drainLines ([bytes "ab", bytes "c" ++ [13, 10] ++ bytes "def" ++ [13, 10]] :
        List (List Nat)).flatten).1 :=
  ⟨by decide,
   spec_C2_line_framing.1 [bytes "ab", bytes "c" ++ [13, 10] ++ bytes "def" ++ [13, 10]]
     hub0 rfl (by decide) (by decide)⟩

/-- C4 (amended): for every payload accepted by `send_message`, the payload
is written as sequential ≤20-byte transport chunks, each write preceded by a
fixed 50 ms pacing delay and the chunks reassembling to the payload — and
only AFTER all writes does the call set Status = AwaitingChecksum (as the
first step of the checksum wait, whose phase performs no transport write).
The original claim's order (status first, then writes) is inverted. -/
theorem spec_C4_write_then_checking (arr : Nat → Option (List Nat)) (h : Hub)
    (data : List Nat) (hlen : data.length ≤ 100) (hst : h.state ≠ .CHECKING) :
    ∃ waitEvs : List Ev,
      (send_message arr h data).events =
        ((pyChunks 20 data).flatMap fun chunk => [Ev.sleep 50, Ev.tx chunk]) ++ waitEvs ∧
      waitEvs.head? = some (Ev.stateChange .CHECKING) ∧
      (∀ e ∈ waitEvs, isTx e = false) ∧
      (pyChunks 20 data).flatten = data ∧
      (∀ c ∈ pyChunks 20 data, c.length ≤ 20) := by
  have hlen2 : ¬ data.length > 100 := by omega
  refine ⟨(wait_for_checksum arr h).events, ?_, ?_, ?_, ?_, ?_⟩
  · rw [send_message_events hlen2]
    rfl
  · rw [wait_for_checksum_eq]
    simp only
    have hu : (update_state h .CHECKING).2 = [Ev.stateChange .CHECKING] := by
      unfold update_state updStateS
      rw [if_pos (fun he => hst he.symm)]
    rw [hu]
    rfl
  · intro e he
    have hb := wait_for_checksum_benign arr h
    rw [List.all_eq_true] at hb
    exact benign_not_tx (hb e he)
  · exact pyChunks_flatten 20 (by omega) data
  · exact pyChunks_length_le 20 data

/-- Counterexample for C4 as stated: for the one-byte payload the concrete
event trace shows the pacing sleep and the transport write happening
strictly BEFORE the Status = AwaitingChecksum change — a transport write
occurs among the events preceding the first AwaitingChecksum status event,
contradicting "first sets Status, only then writes". -/
theorem spec_C4_counterexample :
    (send_message (echoAt 0 1) hub0 [1]).events =
      [Ev.sleep 50, Ev.tx [1], Ev.stateChange .CHECKING, Ev.sleep 10,
       Ev.checksumByte 1, Ev.stateChange .IDLE] ∧
    ((send_message (echoAt 0 1) hub0 [1]).events.takeWhile
        fun e => decide (e ≠ Ev.stateChange .CHECKING)).any isTx = true := by decide

/-- Witness for C4 (amended) at a concrete three-byte payload. -/
theorem spec_C4_witness :
    ∃ waitEvs : List Ev,
      (send_message arrSilent hub0 [1, 2, 3]).events =
        ((pyChunks 20 [1, 2, 3]).flatMap fun chunk => [Ev.sleep 50, Ev.tx chunk])
          ++ waitEvs ∧
      waitEvs.head? = some (Ev.stateChange .CHECKING) ∧
      (∀ e ∈ waitEvs, isTx e = false) ∧
      (pyChunks 20 [1, 2, 3]).flatten = [1, 2, 3] ∧
      (∀ c ∈ pyChunks 20 [1, 2, 3], c.length ≤ 20) :=
  spec_C4_write_then_checking arrSilent hub0 [1, 2, 3] (by decide) (by decide)

/-- C6: for every transport, hub and program payload, whenever
`download_and_run` completes without error the bytes it wrote to the
transport are exactly the 4-byte little-endian length prefix (sent first,
as one `send_message` call) followed by the program bytes in order (sent
as the sequential `send_message` protocol chunks, each completing its
checksum handshake before the next starts), and the very last event is the
entry into `wait_until_not_running`; the 100-byte protocol chunks always
reassemble to the program; any failing message instead aborts the whole
call before `wait_until_not_running` and propagates its error. On the
250-byte program with an always-correct-echo transport this comes to: no
error, length prefix [250,0,0,0], chunks of 100, 100 and 50 bytes, exactly
4 checksum handshakes started (1 length message + 3 chunks, each
separately acknowledged), and the run-wait entered last. -/
theorem spec_C6_download_and_run :
    (∀ (arrs : Nat → Nat → Option (List Nat)) (h : Hub) (mpy : List Nat),
      (download_and_run arrs h mpy).1 = none →
      txJoin (download_and_run arrs h mpy).2.2 = le4 mpy.length ++ mpy ∧
      (download_and_run arrs h mpy).2.2.getLast? = some Ev.runWait) ∧
    (∀ mpy : List Nat, (pyChunks 100 mpy).flatten = mpy) ∧
    (∀ (arrs : Nat → Nat → Option (List Nat)) (h : Hub) (mpy : List Nat) (e : SendErr),
      (download_and_run arrs h mpy).1 = some e →
      Ev.runWait ∉ (download_and_run arrs h mpy).2.2) ∧
    (download_and_run echoArrs hub0 mpy250).1 = none ∧
    txJoin (download_and_run echoArrs hub0 mpy250).2.2 = le4 250 ++ mpy250 ∧
    le4 mpy250.length = [250, 0, 0, 0] ∧
    (pyChunks 100 mpy250).map List.length = [100, 100, 50] ∧
    (download_and_run echoArrs hub0 mpy250).2.2.count (Ev.stateChange .CHECKING) = 4 ∧
    (download_and_run echoArrs hub0 mpy250).2.2.getLast? = some Ev.runWait := by
  refine ⟨download_and_run_success, pyChunks_flatten 100 (by omega),
    download_and_run_abort, by decide, by decide, by decide, by decide, by decide,
    by decide⟩

/-- Witness for C6: the success conjunct exercised on the 250-byte program
with the echo transport, and the abort conjunct on a silent transport
(the length message times out and the run-wait is never entered). -/
theorem spec_C6_witness :
    txJoin (download_and_run echoArrs hub0 mpy250).2.2 = le4 mpy250.length ++ mpy250 ∧
    (download_and_run echoArrs hub0 mpy250).2.2.getLast? = some Ev.runWait ∧
    (download_and_run arrsSilent hub0 [5]).1 = some .ChecksumTimeout ∧
    Ev.runWait ∉ (download_and_run arrsSilent hub0 [5]).2.2 :=
  ⟨(spec_C6_download_and_run.1 echoArrs hub0 mpy250 (by decide)).1,
   (spec_C6_download_and_run.1 echoArrs hub0 mpy250 (by decide)).2,
   by decide,
   spec_C6_download_and_run.2.2.1 arrsSilent hub0 [5] .ChecksumTimeout (by decide)⟩

/-- C7 (amended): a Status change is recorded only when the new value
differs from the current one: delivering the same status token twice
consecutively from a current state DIFFERENT from the token's state records
exactly one state-change event, and delivering a token equal to the current
state records none. (The original "for every current state ... exactly one"
fails when the current state already equals the token's state.) -/
theorem spec_C7_state_change_events :
    (∀ (line : List Nat) (ns s : HubState) (rp : Option Nat) (lf : Option (List Nat)),
      map_state line = some ns → s ≠ .CHECKING → s ≠ ns →
      stateChangeCount (deliverAll ⟨[], s, rp, lf⟩
        [line ++ [13, 10], line ++ [13, 10]]).2 = 1) ∧
    (∀ (line : List Nat) (ns : HubState) (rp : Option Nat) (lf : Option (List Nat)),
      map_state line = some ns →
      stateChangeCount (deliverAll ⟨[], ns, rp, lf⟩ [line ++ [13, 10]]).2 = 0) := by
  constructor
  · intro line ns s rp lf hm hs hne
    rcases map_state_inv hm with ⟨rfl, rfl⟩ | ⟨rfl, rfl⟩ | ⟨rfl, rfl⟩ <;>
      cases s <;>
        first
          | exact absurd rfl hs
          | exact absurd rfl hne
          | (cases lf <;> rfl)
  · intro line ns rp lf hm
    rcases map_state_inv hm with ⟨rfl, rfl⟩ | ⟨rfl, rfl⟩ | ⟨rfl, rfl⟩ <;>
      cases lf <;> rfl

/-- Counterexample for C7 as stated: from current state IDLE, delivering
`>>>> IDLE` twice records ZERO state-change events, not exactly one. -/
theorem spec_C7_counterexample :
    stateChangeCount (deliverAll { hub0 with state := .IDLE }
      [bytes ">>>> IDLE" ++ [13, 10], bytes ">>>> IDLE" ++ [13, 10]]).2 = 0 ∧
    stateChangeCount (deliverAll { hub0 with state := .IDLE }
      [bytes ">>>> IDLE" ++ [13, 10], bytes ">>>> IDLE" ++ [13, 10]]).2 ≠ 1 := by decide

/-- Witness for C7 (amended): `>>>> IDLE` twice from UNKNOWN gives one event. -/
theorem spec_C7_witness :
    stateChangeCount (deliverAll ⟨[], .UNKNOWN, none, none⟩
      [bytes ">>>> IDLE" ++ [13, 10], bytes ">>>> IDLE" ++ [13, 10]]).2 = 1 :=
  spec_C7_state_change_events.1 (bytes ">>>> IDLE") .IDLE .UNKNOWN none none
    (by decide) (by decide) (by decide)

/-- C9: the line processor enforces the log-sink lifecycle: an open-marker
line raises if a log file is already open, else opens one named by the
line's bytes past position 6; a close-marker line raises if none is open,
else closes it; while a file is open every other line is written to it
(with a trailing newline, byte 10) and not forwarded to the output sink;
and the spec's open / two data lines / close scenario produces exactly one
open, two file writes and one close, ending with no file open. -/
theorem spec_C9_log_lifecycle :
    (∀ (f line : List Nat), containsSeq PB_OF line = true →
      process_line (some f) line = .error .logAlreadyOpen) ∧
    (∀ line : List Nat, containsSeq PB_OF line = true →
      process_line none line = .ok (some (line.drop 6), [Ev.logOpen (line.drop 6)])) ∧
    (∀ line : List Nat, containsSeq PB_OF line = false →
      containsSeq PB_EOF line = true →
      process_line none line = .error .noLogOpen) ∧
    (∀ (f line : List Nat), containsSeq PB_OF line = false →
      containsSeq PB_EOF line = true →
      process_line (some f) line = .ok (none, [Ev.logClose])) ∧
    (∀ (f line : List Nat), containsSeq PB_OF line = false →
      containsSeq PB_EOF line = false →
      process_line (some f) line = .ok (some f, [Ev.fileWrite (line ++ [10])])) ∧
    (deliverAll hub0 [bytes "PB_OF out.txt" ++ [13, 10], bytes "data1" ++ [13, 10],
        bytes "data2" ++ [13, 10], bytes "PB_EOF" ++ [13, 10]]).2 =
      [Ev.lineRx (bytes "PB_OF out.txt"), Ev.logOpen (bytes "out.txt"),
       Ev.lineRx (bytes "data1"), Ev.fileWrite (bytes "data1" ++ [10]),
       Ev.lineRx (bytes "data2"), Ev.fileWrite (bytes "data2" ++ [10]),
       Ev.lineRx (bytes "PB_EOF"), Ev.logClose] ∧
    (deliverAll hub0 [bytes "PB_OF out.txt" ++ [13, 10], bytes "data1" ++ [13, 10],
        bytes "data2" ++ [13, 10], bytes "PB_EOF" ++ [13, 10]]).1.log_file = none := by
  refine ⟨?_, ?_, ?_, ?_, ?_, by decide, by decide⟩
  · intro f line hc
    unfold process_line
    rw [if_pos hc]
  · intro line hc
    unfold process_line
    rw [if_pos hc]
  · intro line hc1 hc2
    unfold process_line
    rw [if_neg (by simp [hc1]), if_pos hc2]
  · intro f line hc1 hc2
    unfold process_line
    rw [if_neg (by simp [hc1]), if_pos hc2]
  · intro f line hc1 hc2
    unfold process_line
    rw [if_neg (by simp [hc1]), if_neg (by simp [hc2])]

/-- Witness for C9 at a concrete open-marker line. -/
theorem spec_C9_witness :
    process_line none (bytes "PB_OF out.txt") =
      .ok (some ((bytes "PB_OF out.txt").drop 6),
        [Ev.logOpen ((bytes "PB_OF out.txt").drop 6)]) :=
  spec_C9_log_lifecycle.2.1 (bytes "PB_OF out.txt") (by decide)

end Pybricksdev
